import Mathlib

/-!
Verification of the version-extraction logic of `doc/conf.py` (EVFS
documentation build configuration).

The only algorithmic content of the file is

  def parse_build_version(fname):
    with open(fname, 'r') as fh:
      for ln in fh.readlines():
        m = re.match(r'^#define\s+\w+_VERSION\s+"(.*)"', ln)
        if(m):
          return m.group(1)
    return '1.0.0'

We embed the file as a list of lines (lists of characters, with the
trailing newline stripped, as `readlines` lines hold at most one final
newline which no part of the pattern can usefully consume), the regex
match as a deterministic character-level scanner, and the open failure
as an `Except` value.
-/

namespace EVFS

/-- Characters of the regex class `\s` (ASCII range, as used by the file). -/
def isSpaceCh (c : Char) : Bool :=
  c == ' ' || c == '\t' || c == '\n' || c == '\r' || c == '\x0b' || c == '\x0c'

/-- Characters of the regex class `\w` (ASCII range, as used by the file). -/
def isWordCh (c : Char) : Bool :=
  c.isAlphanum || c == '_'

/-- Abbreviation turning a string literal into the character list it denotes. -/
def str (s : String) : List Char := s.toList

/-- Match a literal pattern at the front of the input, returning the rest. -/
def dropLit : List Char → List Char → Option (List Char)
  | [], s => some s
  | _ :: _, [] => none
  | p :: ps, c :: cs => if c = p then dropLit ps cs else none

/-- The capture of the greedy tail `(.*)"` of the regex: everything strictly
before the last double quote of the region, or `none` when the region holds
no double quote. -/
def lastQuoteCapture (region : List Char) : Option (List Char) :=
  match region.reverse.dropWhile (fun c => c ≠ '"') with
  | [] => none
  | _ :: tail => some tail.reverse

/-- The tail `"(.*)"` of the regex: a literal opening double quote, then the
greedy capture up to the last double quote before any newline (`.` does not
match a newline). -/
def matchQuoted : List Char → Option (List Char)
  | [] => none
  | c :: rest =>
    if c = '"' then lastQuoteCapture (rest.takeWhile (fun x => x ≠ '\n')) else none

/-- The part `\s+\w+_VERSION\s+"(.*)"` of the regex, applied after the
literal `#define`. Because `\w` and `\s` are disjoint, `\s+` must take the
whole whitespace run, and `\w+_VERSION` (with `\s` next) succeeds exactly
when the maximal word-character run ends in `_VERSION` with at least one
character before it, i.e. has length at least 9 and suffix `_VERSION`. -/
def matchAfterDefine (s1 : List Char) : Option (List Char) :=
  if (s1.takeWhile isSpaceCh).isEmpty then none
  else
    if 9 ≤ ((s1.dropWhile isSpaceCh).takeWhile isWordCh).length ∧
        ((s1.dropWhile isSpaceCh).takeWhile isWordCh).drop
          (((s1.dropWhile isSpaceCh).takeWhile isWordCh).length - 8) = str "_VERSION" then
      if (((s1.dropWhile isSpaceCh).dropWhile isWordCh).takeWhile isSpaceCh).isEmpty then none
      else matchQuoted (((s1.dropWhile isSpaceCh).dropWhile isWordCh).dropWhile isSpaceCh)
    else none

/-- `re.match(r'^#define\s+\w+_VERSION\s+"(.*)"', ln)`, returning the capture
group. The pattern is anchored at the start of the line: it first consumes
the literal `#define`, then runs the remaining segments. -/
def matchVersionLine (ln : List Char) : Option (List Char) :=
  match dropLit (str "#define") ln with
  | none => none
  | some s1 => matchAfterDefine s1

/-- `parse_build_version` on the list of lines of an already-opened file:
scan the lines in order, return the first capture, or `'1.0.0'` when no
line matches. -/
def parse_build_version : List (List Char) → List Char
  | [] => str "1.0.0"
  | ln :: rest =>
    match matchVersionLine ln with
    | some v => v
    | none => parse_build_version rest

/-- `parse_build_version` including the `open` step: a missing/unreadable
file (`none`) makes `open` raise, and the exception propagates out of the
function unhandled; otherwise the line scan runs on the file's lines. -/
def parse_build_version_file : Option (List (List Char)) → Except Unit (List Char)
  | none => Except.error ()
  | some lines => Except.ok (parse_build_version lines)

/-- Spec-side shape, written from the spec's words, for comparison with
`matchVersionLine`: after the identifier and whitespace the rest of the
line must be exactly one double-quoted string literal — an opening quote,
quote-free content, and a closing quote that ends the line. -/
def specQuotedLit : List Char → Bool
  | [] => false
  | c :: rest =>
    decide (c = '"') && decide (rest ≠ []) &&
    decide (rest.getLast? = some '"') && decide (rest.count '"' = 1)

/-- Spec-side shape after the literal `#define`: whitespace, an identifier
ending in `_VERSION`, whitespace, then exactly a double-quoted literal. -/
def specAfterDefine (s1 : List Char) : Bool :=
  !(s1.takeWhile isSpaceCh).isEmpty &&
  decide (9 ≤ ((s1.dropWhile isSpaceCh).takeWhile isWordCh).length) &&
  decide (((s1.dropWhile isSpaceCh).takeWhile isWordCh).drop
    (((s1.dropWhile isSpaceCh).takeWhile isWordCh).length - 8) = str "_VERSION") &&
  !((((s1.dropWhile isSpaceCh).dropWhile isWordCh).takeWhile isSpaceCh).isEmpty) &&
  specQuotedLit (((s1.dropWhile isSpaceCh).dropWhile isWordCh).dropWhile isSpaceCh)

/-- Spec-side shape, written from the spec's words: a line that CONSISTS OF
a `#define` directive, an identifier ending in `_VERSION`, and a
double-quoted string literal, with nothing after the literal. Used only to
compare the spec's wording with the behaviour of `matchVersionLine`. -/
def specVersionShape (ln : List Char) : Bool :=
  match dropLit (str "#define") ln with
  | none => false
  | some s1 => specAfterDefine s1

/-! ### Basic laws of the scanner -/

lemma parse_cons_some {ln v : List Char} {rest : List (List Char)}
    (h : matchVersionLine ln = some v) :
    parse_build_version (ln :: rest) = v := by
  simp [parse_build_version, h]

lemma parse_cons_none {ln : List Char} {rest : List (List Char)}
    (h : matchVersionLine ln = none) :
    parse_build_version (ln :: rest) = parse_build_version rest := by
  simp [parse_build_version, h]

lemma parse_append_none {pre : List (List Char)}
    (h : ∀ l ∈ pre, matchVersionLine l = none) (rest : List (List Char)) :
    parse_build_version (pre ++ rest) = parse_build_version rest := by
  induction pre with
  | nil => rfl
  | cons a t ih =>
    rw [List.cons_append, parse_cons_none (h a (List.mem_cons_self a t))]
    exact ih (fun l hl => h l (List.mem_cons_of_mem a hl))

lemma parse_all_none {lines : List (List Char)}
    (h : ∀ l ∈ lines, matchVersionLine l = none) :
    parse_build_version lines = str "1.0.0" := by
  have := parse_append_none h []
  simpa using this

/-! ### Character-class facts -/

lemma space_cases {c : Char} (h : isSpaceCh c = true) :
    c = ' ' ∨ c = '\t' ∨ c = '\n' ∨ c = '\r' ∨ c = '\x0b' ∨ c = '\x0c' := by
  simpa [isSpaceCh, or_assoc] using h

lemma space_not_word {c : Char} (h : isSpaceCh c = true) : isWordCh c = false := by
  rcases space_cases h with h | h | h | h | h | h <;> subst h <;> decide

lemma word_not_space {c : Char} (h : isWordCh c = true) : isSpaceCh c = false := by
  cases hs : isSpaceCh c with
  | false => rfl
  | true => rw [space_not_word hs] at h; cases h

lemma space_ne_hash {c : Char} (h : isSpaceCh c = true) : c ≠ '#' := by
  rcases space_cases h with h | h | h | h | h | h <;> subst h <;> decide

/-! ### takeWhile / dropWhile over structured lines -/

lemma takeWhile_all {p : Char → Bool} {l : List Char} (h : ∀ x ∈ l, p x = true) :
    l.takeWhile p = l := by
  induction l with
  | nil => rfl
  | cons a t ih =>
    rw [List.takeWhile_cons, h a (List.mem_cons_self a t), if_pos rfl]
    rw [ih (fun x hx => h x (List.mem_cons_of_mem a hx))]

lemma takeWhile_append_cons {p : Char → Bool} {a : List Char} {c : Char} {b : List Char}
    (ha : ∀ x ∈ a, p x = true) (hc : p c = false) :
    (a ++ c :: b).takeWhile p = a := by
  induction a with
  | nil => simp [List.takeWhile_cons, hc]
  | cons x xs ih =>
    have hx : p x = true := ha x (List.mem_cons_self x xs)
    rw [List.cons_append, List.takeWhile_cons, hx, if_pos rfl]
    rw [ih (fun y hy => ha y (List.mem_cons_of_mem x hy))]

lemma dropWhile_append_cons {p : Char → Bool} {a : List Char} {c : Char} {b : List Char}
    (ha : ∀ x ∈ a, p x = true) (hc : p c = false) :
    (a ++ c :: b).dropWhile p = c :: b := by
  induction a with
  | nil => simp [List.dropWhile_cons, hc]
  | cons x xs ih =>
    have hx : p x = true := ha x (List.mem_cons_self x xs)
    rw [List.cons_append, List.dropWhile_cons, hx, if_pos rfl]
    exact ih (fun y hy => ha y (List.mem_cons_of_mem x hy))

lemma dropWhile_head_false {p : Char → Bool} :
    ∀ {l : List Char} {c : Char} {t : List Char}, l.dropWhile p = c :: t → p c = false := by
  intro l
  induction l with
  | nil => intro c t h; cases h
  | cons a as ih =>
    intro c t h
    rw [List.dropWhile_cons] at h
    by_cases hpa : p a = true
    · rw [hpa, if_pos rfl] at h; exact ih h
    · rw [Bool.not_eq_true] at hpa
      rw [hpa] at h
      simp at h
      rw [← h.1]; exact hpa

/-! ### dropLit laws -/

lemma dropLit_self_append (p s : List Char) : dropLit p (p ++ s) = some s := by
  induction p with
  | nil => rfl
  | cons c cs ih => simp [dropLit, ih]

lemma dropLit_eq_append : ∀ {p s t : List Char}, dropLit p s = some t → s = p ++ t := by
  intro p
  induction p with
  | nil => intro s t h; cases h; rfl
  | cons c cs ih =>
    intro s t h
    cases s with
    | nil => cases h
    | cons x xs =>
      rw [dropLit] at h
      by_cases hx : x = c
      · subst hx
        rw [if_pos rfl] at h
        rw [List.cons_append, ← ih h]
      · rw [if_neg hx] at h; cases h

/-! ### lastQuoteCapture laws -/

lemma lastQuoteCapture_append_quote (v : List Char) :
    lastQuoteCapture (v ++ ['"']) = some v := by
  have : (v ++ ['"']).reverse = '"' :: v.reverse := by simp
  rw [lastQuoteCapture, this, List.dropWhile_cons]
  simp

lemma lastQuoteCapture_some_mem {region v : List Char}
    (h : lastQuoteCapture region = some v) : '"' ∈ region := by
  rw [lastQuoteCapture] at h
  cases hd : region.reverse.dropWhile (fun c => c ≠ '"') with
  | nil => rw [hd] at h; cases h
  | cons c t =>
    have hc : (fun c => decide (c ≠ '"')) c = false := dropWhile_head_false hd
    have hc2 : c = '"' := by simpa using hc
    have hmem : c ∈ region.reverse :=
      (List.dropWhile_sublist (fun c => decide (c ≠ '"'))).subset
        (hd ▸ List.mem_cons_self c t)
    rw [hc2] at hmem
    exact List.mem_reverse.mp hmem

/-! ### Matching a structured line -/

lemma isEmpty_false_of_ne {l : List Char} (h : l ≠ []) : l.isEmpty = false := by
  cases l with
  | nil => exact absurd rfl h
  | cons a t => rfl

lemma matchVersionLine_eq_after (s1 : List Char) :
    matchVersionLine (str "#define" ++ s1) = matchAfterDefine s1 := by
  unfold matchVersionLine
  rw [dropLit_self_append]

lemma matchAfterDefine_build {w1 idf w2 v : List Char}
    (hw1n : w1 ≠ []) (hw1 : ∀ c ∈ w1, isSpaceCh c = true)
    (hidw : ∀ c ∈ idf, isWordCh c = true)
    (hidlen : 9 ≤ idf.length)
    (hidsuf : idf.drop (idf.length - 8) = str "_VERSION")
    (hw2n : w2 ≠ []) (hw2 : ∀ c ∈ w2, isSpaceCh c = true)
    (hv : '\n' ∉ v) :
    matchAfterDefine (w1 ++ (idf ++ (w2 ++ '"' :: (v ++ ['"'])))) = some v := by
  have hidn : idf ≠ [] := by
    intro h; rw [h] at hidlen; exact absurd hidlen (by decide)
  obtain ⟨i, id2, rfl⟩ := List.exists_cons_of_ne_nil hidn
  obtain ⟨j, w22, rfl⟩ := List.exists_cons_of_ne_nil hw2n
  have hi : isWordCh i = true := hidw i (List.mem_cons_self _ _)
  have hj : isSpaceCh j = true := hw2 j (List.mem_cons_self _ _)
  have e1 : (w1 ++ (i :: id2 ++ (j :: w22 ++ '"' :: (v ++ ['"'])))).takeWhile isSpaceCh
      = w1 := takeWhile_append_cons hw1 (word_not_space hi)
  have e2 : (w1 ++ (i :: id2 ++ (j :: w22 ++ '"' :: (v ++ ['"'])))).dropWhile isSpaceCh
      = i :: id2 ++ (j :: w22 ++ '"' :: (v ++ ['"'])) :=
    dropWhile_append_cons hw1 (word_not_space hi)
  have e3 : ((i :: id2) ++ (j :: (w22 ++ '"' :: (v ++ ['"'])))).takeWhile isWordCh
      = i :: id2 := takeWhile_append_cons hidw (space_not_word hj)
  have e4 : ((i :: id2) ++ (j :: (w22 ++ '"' :: (v ++ ['"'])))).dropWhile isWordCh
      = j :: (w22 ++ '"' :: (v ++ ['"'])) :=
    dropWhile_append_cons hidw (space_not_word hj)
  have hqs : isSpaceCh '"' = false := by decide
  have e5 : ((j :: w22) ++ ('"' :: (v ++ ['"']))).takeWhile isSpaceCh = j :: w22 :=
    takeWhile_append_cons hw2 hqs
  have e6 : ((j :: w22) ++ ('"' :: (v ++ ['"']))).dropWhile isSpaceCh
      = '"' :: (v ++ ['"']) := dropWhile_append_cons hw2 hqs
  simp only [List.cons_append, List.append_assoc] at e1 e2 e3 e4 e5 e6 ⊢
  rw [matchAfterDefine, e1, e2, e3, e4, e5, e6]
  rw [isEmpty_false_of_ne hw1n]
  rw [if_neg (by simp)]
  rw [if_pos ⟨hidlen, hidsuf⟩]
  rw [isEmpty_false_of_ne (by simp)]
  rw [if_neg (by simp)]
  rw [matchQuoted, if_pos rfl]
  have e7 : (v ++ ['"']).takeWhile (fun x => x ≠ '\n') = v ++ ['"'] := by
    refine takeWhile_all ?_
    intro x hx
    rcases List.mem_append.mp hx with hxv | hxq
    · simp; intro hcon; rw [hcon] at hxv; exact hv hxv
    · simp at hxq; rw [hxq]; decide
  rw [e7, lastQuoteCapture_append_quote]

lemma matchVersionLine_build {w1 idf w2 v : List Char}
    (hw1n : w1 ≠ []) (hw1 : ∀ c ∈ w1, isSpaceCh c = true)
    (hidw : ∀ c ∈ idf, isWordCh c = true)
    (hidlen : 9 ≤ idf.length)
    (hidsuf : idf.drop (idf.length - 8) = str "_VERSION")
    (hw2n : w2 ≠ []) (hw2 : ∀ c ∈ w2, isSpaceCh c = true)
    (hv : '\n' ∉ v) :
    matchVersionLine (str "#define" ++ w1 ++ idf ++ w2 ++ '"' :: (v ++ ['"'])) = some v := by
  have h := matchAfterDefine_build hw1n hw1 hidw hidlen hidsuf hw2n hw2 hv
  have e := matchVersionLine_eq_after (w1 ++ (idf ++ (w2 ++ '"' :: (v ++ ['"']))))
  rw [h] at e
  simpa [List.append_assoc] using e

lemma specVersionShape_eq_after (s1 : List Char) :
    specVersionShape (str "#define" ++ s1) = specAfterDefine s1 := by
  unfold specVersionShape
  rw [dropLit_self_append]

lemma specAfterDefine_build {w1 idf w2 v : List Char}
    (hw1n : w1 ≠ []) (hw1 : ∀ c ∈ w1, isSpaceCh c = true)
    (hidw : ∀ c ∈ idf, isWordCh c = true)
    (hidlen : 9 ≤ idf.length)
    (hidsuf : idf.drop (idf.length - 8) = str "_VERSION")
    (hw2n : w2 ≠ []) (hw2 : ∀ c ∈ w2, isSpaceCh c = true)
    (hnq : '"' ∉ v) :
    specAfterDefine (w1 ++ (idf ++ (w2 ++ '"' :: (v ++ ['"'])))) = true := by
  have hidn : idf ≠ [] := by
    intro h; rw [h] at hidlen; exact absurd hidlen (by decide)
  obtain ⟨i, id2, rfl⟩ := List.exists_cons_of_ne_nil hidn
  obtain ⟨j, w22, rfl⟩ := List.exists_cons_of_ne_nil hw2n
  have hi : isWordCh i = true := hidw i (List.mem_cons_self _ _)
  have hj : isSpaceCh j = true := hw2 j (List.mem_cons_self _ _)
  have e1 : (w1 ++ (i :: id2 ++ (j :: w22 ++ '"' :: (v ++ ['"'])))).takeWhile isSpaceCh
      = w1 := takeWhile_append_cons hw1 (word_not_space hi)
  have e2 : (w1 ++ (i :: id2 ++ (j :: w22 ++ '"' :: (v ++ ['"'])))).dropWhile isSpaceCh
      = i :: id2 ++ (j :: w22 ++ '"' :: (v ++ ['"'])) :=
    dropWhile_append_cons hw1 (word_not_space hi)
  have e3 : ((i :: id2) ++ (j :: (w22 ++ '"' :: (v ++ ['"'])))).takeWhile isWordCh
      = i :: id2 := takeWhile_append_cons hidw (space_not_word hj)
  have e4 : ((i :: id2) ++ (j :: (w22 ++ '"' :: (v ++ ['"'])))).dropWhile isWordCh
      = j :: (w22 ++ '"' :: (v ++ ['"'])) :=
    dropWhile_append_cons hidw (space_not_word hj)
  have hqs : isSpaceCh '"' = false := by decide
  have e5 : ((j :: w22) ++ ('"' :: (v ++ ['"']))).takeWhile isSpaceCh = j :: w22 :=
    takeWhile_append_cons hw2 hqs
  have e6 : ((j :: w22) ++ ('"' :: (v ++ ['"']))).dropWhile isSpaceCh
      = '"' :: (v ++ ['"']) := dropWhile_append_cons hw2 hqs
  simp only [List.cons_append, List.append_assoc] at e1 e2 e3 e4 e5 e6 ⊢
  rw [specAfterDefine, e1, e2, e3, e4, e5, e6]
  rw [isEmpty_false_of_ne hw1n, isEmpty_false_of_ne (by simp)]
  have hq1 : (v ++ ['"']).count '"' = 1 := by
    rw [List.count_append]
    rw [List.count_eq_zero.mpr hnq]
    rfl
  rw [specQuotedLit]
  simp only [List.cons_append] at hidsuf hidlen ⊢
  rw [decide_eq_true hidlen, decide_eq_true hidsuf]
  rw [decide_eq_true (List.getLast?_concat v)]
  rw [decide_eq_true hq1]
  simp

/-! ### Inversion: a successful match needs two double quotes -/

lemma matchQuoted_some {t v : List Char} (h : matchQuoted t = some v) :
    ∃ rest, t = '"' :: rest ∧ '"' ∈ rest := by
  cases t with
  | nil => cases h
  | cons c rest =>
    rw [matchQuoted] at h
    by_cases hc : c = '"'
    · subst hc
      rw [if_pos rfl] at h
      refine ⟨rest, rfl, ?_⟩
      have hmem := lastQuoteCapture_some_mem h
      exact (List.takeWhile_sublist (fun x => decide (x ≠ '\n'))).subset hmem
    · rw [if_neg hc] at h; cases h

lemma matchAfterDefine_some_quotes {s1 v : List Char}
    (h : matchAfterDefine s1 = some v) : 2 ≤ s1.count '"' := by
  rw [matchAfterDefine] at h
  by_cases c1 : ((s1.takeWhile isSpaceCh).isEmpty : Bool) = true
  · rw [if_pos c1] at h; cases h
  · rw [if_neg c1] at h
    by_cases c2 : 9 ≤ ((s1.dropWhile isSpaceCh).takeWhile isWordCh).length ∧
        ((s1.dropWhile isSpaceCh).takeWhile isWordCh).drop
          (((s1.dropWhile isSpaceCh).takeWhile isWordCh).length - 8) = str "_VERSION"
    · rw [if_pos c2] at h
      by_cases c3 : ((((s1.dropWhile isSpaceCh).dropWhile isWordCh).takeWhile
          isSpaceCh).isEmpty : Bool) = true
      · rw [if_pos c3] at h; cases h
      · rw [if_neg c3] at h
        obtain ⟨rest, ht, hmem⟩ := matchQuoted_some h
        have hsub : List.Sublist ('"' :: rest) s1 := by
          rw [← ht]
          exact (List.dropWhile_sublist isSpaceCh).trans
            ((List.dropWhile_sublist isWordCh).trans (List.dropWhile_sublist isSpaceCh))
        have hc1 : 1 ≤ rest.count '"' := List.count_pos_iff.mpr hmem
        have hc2 : ('"' :: rest).count '"' = rest.count '"' + 1 := by
          simp [List.count_cons]
        have := hsub.count_le '"'
        omega
    · rw [if_neg c2] at h; cases h

lemma matchVersionLine_some_quotes {ln v : List Char}
    (h : matchVersionLine ln = some v) : 2 ≤ ln.count '"' := by
  rw [matchVersionLine] at h
  cases hd : dropLit (str "#define") ln with
  | none => rw [hd] at h; cases h
  | some s1 =>
    rw [hd] at h
    have h1 : matchAfterDefine s1 = some v := h
    have hs1 := matchAfterDefine_some_quotes h1
    have hln : ln = str "#define" ++ s1 := dropLit_eq_append hd
    rw [hln, List.count_append]
    have hz : (str "#define").count '"' = 0 := by decide
    omega

/-! ### The claims -/

/-- C1: for every file whose first line matching the version pattern is
`#define FOO_VERSION "2.3.1"` — all earlier lines fail to match and later
lines are arbitrary — `parse_build_version` returns `2.3.1`, the quoted
content without the surrounding quotes. -/
theorem parse_returns_first_matching_value (pre post : List (List Char))
    (hpre : ∀ l ∈ pre, matchVersionLine l = none) :
    parse_build_version (pre ++ str "#define FOO_VERSION \"2.3.1\"" :: post)
      = str "2.3.1" := by
  rw [parse_append_none hpre]
  exact parse_cons_some (by decide)

/-- Witness for C1 at a concrete two-line file. -/
theorem parse_returns_first_matching_value_witness :
    parse_build_version ([str "nothing to see"] ++
      str "#define FOO_VERSION \"2.3.1\"" :: []) = str "2.3.1" :=
  parse_returns_first_matching_value [str "nothing to see"] [] (by decide)

/-- C2: for every file in which no line matches the version pattern —
including the empty file — `parse_build_version` returns the fixed default
string `1.0.0`. -/
theorem parse_no_match_default (lines : List (List Char))
    (h : ∀ l ∈ lines, matchVersionLine l = none) :
    parse_build_version lines = str "1.0.0" :=
  parse_all_none h

/-- Witness for C2 at the empty file and at a non-matching two-line file. -/
theorem parse_no_match_default_witness :
    parse_build_version [] = str "1.0.0" ∧
    parse_build_version [str "no version here", []] = str "1.0.0" :=
  ⟨parse_no_match_default [] (by decide),
   parse_no_match_default [str "no version here", []] (by decide)⟩

/-- C3 counterexample: a version definition with extra leading whitespace
does not match — the pattern `^#define...` is anchored and allows no
leading whitespace — so a file holding only that line yields the default
`1.0.0`, not the quoted value `2.3.1`. -/
theorem leading_whitespace_not_matched :
    matchVersionLine (str "  #define FOO_VERSION \"2.3.1\"") = none ∧
    parse_build_version [str "  #define FOO_VERSION \"2.3.1\""] = str "1.0.0" ∧
    str "1.0.0" ≠ str "2.3.1" := by decide

/-- C3 (amended): a line that begins with a whitespace character never
matches the version pattern, and the scan skips it unchanged. -/
theorem leading_whitespace_line_skipped (c : Char) (ln : List Char)
    (rest : List (List Char)) (hc : isSpaceCh c = true) :
    matchVersionLine (c :: ln) = none ∧
    parse_build_version ((c :: ln) :: rest) = parse_build_version rest := by
  have hm : matchVersionLine (c :: ln) = none := by
    have hne : c ≠ '#' := space_ne_hash hc
    have hdl : dropLit (str "#define") (c :: ln) = none := by
      have hstr : str "#define" = '#' :: str "define" := rfl
      rw [hstr, dropLit, if_neg hne]
    rw [matchVersionLine, hdl]
  exact ⟨hm, parse_cons_none hm⟩

/-- Witness for the amended C3 at a concrete indented line. -/
theorem leading_whitespace_line_skipped_witness :
    matchVersionLine (' ' :: str " #define FOO_VERSION \"2.3.1\"") = none ∧
    parse_build_version ((' ' :: str " #define FOO_VERSION \"2.3.1\"") :: []) =
      parse_build_version [] :=
  leading_whitespace_line_skipped ' ' (str " #define FOO_VERSION \"2.3.1\"") []
    (by decide)

/-- C4: when the first matching line is preceded only by non-matching lines,
the scan returns that line's capture, and the result does not depend on the
lines after the first match (they are never examined). -/
theorem parse_first_of_multiple (pre : List (List Char)) (ln : List Char)
    (post post2 : List (List Char)) (v : List Char)
    (hpre : ∀ l ∈ pre, matchVersionLine l = none)
    (hln : matchVersionLine ln = some v) :
    parse_build_version (pre ++ ln :: post) = v ∧
    parse_build_version (pre ++ ln :: post) = parse_build_version (pre ++ ln :: post2) := by
  have h1 : parse_build_version (pre ++ ln :: post) = v := by
    rw [parse_append_none hpre]; exact parse_cons_some hln
  have h2 : parse_build_version (pre ++ ln :: post2) = v := by
    rw [parse_append_none hpre]; exact parse_cons_some hln
  exact ⟨h1, h1.trans h2.symm⟩

/-- Witness for C4: two matching lines, the first one wins and dropping the
second does not change the outcome. -/
theorem parse_first_of_multiple_witness :
    parse_build_version ([] ++ str "#define FOO_VERSION \"2.3.1\"" ::
      [str "#define BAR_VERSION \"9.9.9\""]) = str "2.3.1" ∧
    parse_build_version ([] ++ str "#define FOO_VERSION \"2.3.1\"" ::
      [str "#define BAR_VERSION \"9.9.9\""]) =
      parse_build_version ([] ++ str "#define FOO_VERSION \"2.3.1\"" :: []) :=
  parse_first_of_multiple [] (str "#define FOO_VERSION \"2.3.1\"")
    [str "#define BAR_VERSION \"9.9.9\""] [] (str "2.3.1") (by decide) (by decide)

/-- C5 counterexample: matching is not equivalent to consisting of a
`#define` directive, an identifier ending in `_VERSION` and a double-quoted
string literal: a line with extra trailing text after the closing quote
matches the code's pattern although it is not of that shape. -/
theorem match_without_spec_shape :
    matchVersionLine (str "#define FOO_VERSION \"1.0\" x") = some (str "1.0") ∧
    specVersionShape (str "#define FOO_VERSION \"1.0\" x") = false := by decide

/-- C5 (amended): every line that does consist of `#define`, whitespace, an
identifier ending in `_VERSION`, whitespace, and a double-quoted string
literal matches, and the quoted content (without quotes) is the result; the
equivalence fails only in the other direction, since the pattern tolerates
trailing content after the literal. -/
theorem spec_shape_line_matches (w1 idf w2 v : List Char)
    (hw1n : w1 ≠ []) (hw1 : ∀ c ∈ w1, isSpaceCh c = true)
    (hidw : ∀ c ∈ idf, isWordCh c = true)
    (hidlen : 9 ≤ idf.length)
    (hidsuf : idf.drop (idf.length - 8) = str "_VERSION")
    (hw2n : w2 ≠ []) (hw2 : ∀ c ∈ w2, isSpaceCh c = true)
    (hnq : '"' ∉ v) (hnl : '\n' ∉ v) :
    specVersionShape (str "#define" ++ w1 ++ idf ++ w2 ++ '"' :: (v ++ ['"'])) = true ∧
    matchVersionLine (str "#define" ++ w1 ++ idf ++ w2 ++ '"' :: (v ++ ['"'])) = some v := by
  constructor
  · have h := specAfterDefine_build hw1n hw1 hidw hidlen hidsuf hw2n hw2 hnq
    have e := specVersionShape_eq_after (w1 ++ (idf ++ (w2 ++ '"' :: (v ++ ['"']))))
    rw [h] at e
    simpa [List.append_assoc] using e
  · exact matchVersionLine_build hw1n hw1 hidw hidlen hidsuf hw2n hw2 hnl

/-- Witness for the amended C5 at a concrete well-shaped line. -/
theorem spec_shape_line_matches_witness :
    specVersionShape (str "#define" ++ [' '] ++ str "FOO_VERSION" ++ [' '] ++
      '"' :: (str "2.3.1" ++ ['"'])) = true ∧
    matchVersionLine (str "#define" ++ [' '] ++ str "FOO_VERSION" ++ [' '] ++
      '"' :: (str "2.3.1" ++ ['"'])) = some (str "2.3.1") :=
  spec_shape_line_matches [' '] (str "FOO_VERSION") [' '] (str "2.3.1")
    (by decide) (by decide) (by decide) (by decide) (by decide) (by decide)
    (by decide) (by decide) (by decide)

/-- C6: a line holding fewer than two double quotes — in particular a
malformed definition such as `#define FOO_VERSION 2.3.1` whose value is not
enclosed in quotes — never matches; the scan moves on to the remaining
lines, and if none of them matches the default `1.0.0` is returned. -/
theorem unquoted_line_skipped (ln : List Char) (rest : List (List Char))
    (h : ln.count '"' < 2) :
    matchVersionLine ln = none ∧
    parse_build_version (ln :: rest) = parse_build_version rest ∧
    ((∀ l ∈ rest, matchVersionLine l = none) →
      parse_build_version (ln :: rest) = str "1.0.0") := by
  have hm : matchVersionLine ln = none := by
    cases hm : matchVersionLine ln with
    | none => rfl
    | some v =>
      have := matchVersionLine_some_quotes hm
      omega
  refine ⟨hm, parse_cons_none hm, fun hr => ?_⟩
  rw [parse_cons_none hm]
  exact parse_all_none hr

/-- Witness for C6 at the spec's malformed line. -/
theorem unquoted_line_skipped_witness :
    matchVersionLine (str "#define FOO_VERSION 2.3.1") = none ∧
    parse_build_version [str "#define FOO_VERSION 2.3.1"] = parse_build_version [] ∧
    ((∀ l ∈ ([] : List (List Char)), matchVersionLine l = none) →
      parse_build_version [str "#define FOO_VERSION 2.3.1"] = str "1.0.0") :=
  unquoted_line_skipped (str "#define FOO_VERSION 2.3.1") [] (by decide)

/-- C7: when the named file cannot be opened, the failure of `open`
propagates out of `parse_build_version` as an error, and in particular the
default `1.0.0` is not returned. -/
theorem open_failure_propagates :
    parse_build_version_file none = Except.error () ∧
    parse_build_version_file none ≠ Except.ok (str "1.0.0") := by
  refine ⟨rfl, fun h => ?_⟩
  exact Except.noConfusion h

/-- C8: the capture `"(.*)"` is greedy: on a line whose quoted part holds
further double quotes, the result is everything between the first double
quote and the last double quote, embedded quotes included — not just the
first quoted literal. -/
theorem greedy_capture_spans_quotes (w1 idf w2 v : List Char)
    (hw1n : w1 ≠ []) (hw1 : ∀ c ∈ w1, isSpaceCh c = true)
    (hidw : ∀ c ∈ idf, isWordCh c = true)
    (hidlen : 9 ≤ idf.length)
    (hidsuf : idf.drop (idf.length - 8) = str "_VERSION")
    (hw2n : w2 ≠ []) (hw2 : ∀ c ∈ w2, isSpaceCh c = true)
    (hnl : '\n' ∉ v) (hq : '"' ∈ v) :
    matchVersionLine (str "#define" ++ w1 ++ idf ++ w2 ++ '"' :: (v ++ ['"'])) = some v :=
  matchVersionLine_build hw1n hw1 hidw hidlen hidsuf hw2n hw2 hnl

/-- Witness for C8 at the line `#define FOO_VERSION "1.0" "2.0"`, whose
capture is `1.0" "2.0` — between the first and the last quote. -/
theorem greedy_capture_spans_quotes_witness :
    matchVersionLine (str "#define" ++ [' '] ++ str "FOO_VERSION" ++ [' '] ++
      '"' :: (str "1.0\" \"2.0" ++ ['"'])) = some (str "1.0\" \"2.0") :=
  greedy_capture_spans_quotes [' '] (str "FOO_VERSION") [' '] (str "1.0\" \"2.0")
    (by decide) (by decide) (by decide) (by decide) (by decide) (by decide)
    (by decide) (by decide) (by decide)

/-- C9: the scan is total and its result always has one of exactly two
shapes: the capture group of some line of the file, or the default string
`1.0.0` — never anything else. -/
theorem parse_total_result_shape (lines : List (List Char)) :
    parse_build_version lines = str "1.0.0" ∨
    ∃ ln, ln ∈ lines ∧ matchVersionLine ln = some (parse_build_version lines) := by
  induction lines with
  | nil => exact Or.inl rfl
  | cons a t ih =>
    cases hm : matchVersionLine a with
    | none =>
      rw [parse_cons_none hm]
      rcases ih with h | ⟨ln, hmem, hl⟩
      · exact Or.inl h
      · exact Or.inr ⟨ln, List.mem_cons_of_mem a hmem, hl⟩
    | some v =>
      refine Or.inr ⟨a, List.mem_cons_self _ _, ?_⟩
      rw [parse_cons_some hm, hm]

/-- C10: the scan is deterministic — its result depends only on the
sequence of lines read, so equal line sequences give equal results (in this
embedding `parse_build_version` is a pure function of the lines). -/
theorem parse_deterministic (l1 l2 : List (List Char)) (h : l1 = l2) :
    parse_build_version l1 = parse_build_version l2 := by
  rw [h]

/-- Witness for C10 at a concrete file. -/
theorem parse_deterministic_witness :
    parse_build_version [str "#define X_VERSION \"7\""] =
      parse_build_version [str "#define X_VERSION \"7\""] :=
  parse_deterministic [str "#define X_VERSION \"7\""]
    [str "#define X_VERSION \"7\""] rfl

end EVFS
